import Mathlib

/-!
Shallow embedding of the `cancellation-token` crate
(`src/cancellation-token/src/token.rs` and `src/cancellation-token/src/future.rs`).

Modelling conventions:
* A `Waker` (the opaque resumption callback handed over by the executor) is an
  opaque identifier (`Nat`).  Invoking `waker.wake()` is recorded by appending
  the identifier to a global `wakeLog`; "the callback was invoked exactly once"
  becomes "its identifier occurs exactly once in the log".
* `Arc<FutureWaiter>` values are heap cells identified by their index
  (`CellId`) into a cell heap; `Arc::ptr_eq` becomes equality of `CellId`s.
* `Arc<CancellationState>` values are entries of a state heap (`World.states`);
  cloning a token or deriving a read-only token copies the *index*, exactly as
  cloning an `Arc` copies the pointer.
* The atomic flag and the mutex disappear: each operation is a pure function
  on the whole `World`, which matches running the operations in some serial
  order.  For claim C3 (which is about where the lock is held) the drain is
  additionally rendered as an event trace whose `lockAcquire`/`lockRelease`
  events mirror the scope of the `parking_lot::MutexGuard` in the source.
-/

/-- Opaque resumption callback (`std::task::Waker`), identified by a number. -/
abbrev Waker := Nat

/-- Index of a `FutureWaiter` heap cell; stands for the `Arc<FutureWaiter>`
pointer, so `Arc::ptr_eq` is equality of `CellId`s. -/
abbrev CellId := Nat

/-- `FutureWaiter` (future.rs, lines 15-17): `waker: Mutex<Option<Waker>>`. -/
structure FutureWaiter where
  waker : Option Waker
deriving DecidableEq

/-- `FutureWaiter::new_empty` (future.rs, lines 21-25). -/
def FutureWaiter.new_empty : FutureWaiter :=
  { waker := none }

instance : Inhabited FutureWaiter := ⟨FutureWaiter.new_empty⟩

/-- `FutureWaiter::set_waker` (future.rs, lines 27-36): store/replace the waker.
The `clone_from` branch is a clone-avoidance optimisation; observably the cell
always holds the supplied waker afterwards. -/
def FutureWaiter.set_waker (_c : FutureWaiter) (w : Waker) : FutureWaiter :=
  { waker := some w }

/-- `FutureWaiter::take_waker` (future.rs, lines 38-41): retrieve and clear. -/
def FutureWaiter.take_waker (c : FutureWaiter) : Option Waker × FutureWaiter :=
  (c.waker, { waker := none })

/-- `CancellationState` (token.rs, lines 12-22): atomic flag plus the
mutex-guarded `Vec<Arc<FutureWaiter>>` of registered waiters. -/
structure CancellationState where
  cancellation_flag : Bool
  async_waiters : List CellId
deriving DecidableEq

/-- `CancellationState::new` (token.rs, lines 27-32). -/
def CancellationState.new : CancellationState :=
  { cancellation_flag := false, async_waiters := [] }

instance : Inhabited CancellationState := ⟨CancellationState.new⟩

/-- `CancellationState::is_cancelled` (token.rs, lines 36-38). -/
def CancellationState.is_cancelled (s : CancellationState) : Bool :=
  s.cancellation_flag

/-- One iteration of the `drain(..)` loop body in
`CancellationState::wake_all_async_waiters` (token.rs, lines 52-64):
take the cell's waker (clearing the cell) and, if one was present, invoke it
(append it to the wake log). -/
def wakeOne (acc : List FutureWaiter × List Waker) (cid : CellId) :
    List FutureWaiter × List Waker :=
  let cell := acc.1.getD cid FutureWaiter.new_empty
  let taken := cell.take_waker
  match taken.1 with
  | some waker => (acc.1.set cid taken.2, acc.2 ++ [waker])
  | none => (acc.1.set cid taken.2, acc.2)

/-- `CancellationState::wake_all_async_waiters` (token.rs, lines 49-65):
drain the registry and wake every waiter whose waker is present.
Returns the updated state (empty registry), cell heap and wake log. -/
def CancellationState.wake_all_async_waiters (s : CancellationState)
    (cells : List FutureWaiter) (wakeLog : List Waker) :
    CancellationState × List FutureWaiter × List Waker :=
  let drained := s.async_waiters.foldl wakeOne (cells, wakeLog)
  ({ s with async_waiters := [] }, drained.1, drained.2)

/-- `CancellationState::cancel` (token.rs, lines 42-45): store `true` into the
flag, then wake all async waiters. -/
def CancellationState.cancel (s : CancellationState)
    (cells : List FutureWaiter) (wakeLog : List Waker) :
    CancellationState × List FutureWaiter × List Waker :=
  CancellationState.wake_all_async_waiters
    { s with cancellation_flag := true } cells wakeLog

/-- `CancellationState::add_waiter` (token.rs, lines 68-71): push the cell. -/
def CancellationState.add_waiter (s : CancellationState) (cid : CellId) :
    CancellationState :=
  { s with async_waiters := s.async_waiters ++ [cid] }

/-- Result of `CancellationState::try_remove_waiter`: `Ok(())` / `Err(())`. -/
inductive RemoveResult
  | found
  | not_found
deriving DecidableEq

/-- `Iterator::position` as used in `try_remove_waiter` (token.rs, lines 83-86). -/
def findPosition (p : Nat → Bool) : List Nat → Option Nat
  | [] => none
  | x :: xs => if p x then some 0 else (findPosition p xs).map (fun i => i + 1)

/-- Last element of `x :: xs`; helper for `swapRemove`. -/
def lastElemD : List CellId → CellId → CellId
  | [], d => d
  | a :: as, _ => lastElemD as a

/-- `Vec::swap_remove` (token.rs, line 90): replace the element at `i` by the
last element and pop the last slot.  Only invoked with an in-bounds index
coming from `findPosition`. -/
def swapRemove : List CellId → Nat → List CellId
  | [], _ => []
  | x :: xs, i => ((x :: xs).set i (lastElemD xs x)).dropLast

/-- `CancellationState::try_remove_waiter` (token.rs, lines 80-93):
identity-based (`Arc::ptr_eq`, i.e. `CellId` equality) removal; returns
`not_found` when the waiter is absent, leaving the registry unchanged. -/
def CancellationState.try_remove_waiter (s : CancellationState) (cid : CellId) :
    RemoveResult × CancellationState :=
  match findPosition (fun c => c == cid) s.async_waiters with
  | none => (RemoveResult.not_found, s)
  | some i =>
      (RemoveResult.found,
       { s with async_waiters := swapRemove s.async_waiters i })

/-- The heap of `Arc<CancellationState>` blocks, the heap of
`Arc<FutureWaiter>` cells, and the log of waker invocations. -/
structure World where
  states : List CancellationState
  cells : List FutureWaiter
  wakeLog : List Waker
deriving DecidableEq

/-- The world before any allocation. -/
def World.empty : World :=
  { states := [], cells := [], wakeLog := [] }

/-- Dereference an `Arc<CancellationState>`. -/
def World.getState (w : World) (sid : Nat) : CancellationState :=
  w.states.getD sid CancellationState.new

/-- `CancellationToken` (token.rs, lines 104-108): an `Arc` to the state. -/
structure CancellationToken where
  state : Nat
deriving DecidableEq

/-- `ReadOnlyCancellationToken` (token.rs, lines 156-160). -/
structure ReadOnlyCancellationToken where
  token : Nat
deriving DecidableEq

/-- `CancellationToken::new` (token.rs, lines 113-117): allocate a fresh
`CancellationState`. -/
def CancellationToken.new (w : World) : CancellationToken × World :=
  ({ state := w.states.length },
   { w with states := w.states ++ [CancellationState.new] })

/-- `#[derive(Clone)]` on `CancellationToken` (token.rs, line 104): cloning
copies the `Arc`, aliasing the same state. -/
def CancellationToken.clone (t : CancellationToken) : CancellationToken :=
  t

/-- `CancellationToken::read_only_token` (token.rs, lines 127-129). -/
def CancellationToken.read_only_token (t : CancellationToken) :
    ReadOnlyCancellationToken :=
  { token := t.state }

/-- `CancellationToken::is_cancelled` (token.rs, lines 132-134). -/
def CancellationToken.is_cancelled (t : CancellationToken) (w : World) : Bool :=
  (w.getState t.state).is_cancelled

/-- `CancellationToken::cancel` (token.rs, lines 146-148). -/
def CancellationToken.cancel (t : CancellationToken) (w : World) : World :=
  let result := (w.getState t.state).cancel w.cells w.wakeLog
  { states := w.states.set t.state result.1,
    cells := result.2.1,
    wakeLog := result.2.2 }

/-- `#[derive(Clone)]` on `ReadOnlyCancellationToken` (token.rs, line 156). -/
def ReadOnlyCancellationToken.clone (rt : ReadOnlyCancellationToken) :
    ReadOnlyCancellationToken :=
  rt

/-- `ReadOnlyCancellationToken::is_cancelled` (token.rs, lines 169-171). -/
def ReadOnlyCancellationToken.is_cancelled (rt : ReadOnlyCancellationToken)
    (w : World) : Bool :=
  (w.getState rt.token).is_cancelled

/-- `Poll<()>` of the future. -/
inductive Poll
  | ready
  | pending
deriving DecidableEq

/-- `CancellationTokenFuture` (future.rs, lines 48-53). -/
structure CancellationTokenFuture where
  token : ReadOnlyCancellationToken
  has_been_triggered : Bool
  has_finished : Bool
  waiter : CellId
deriving DecidableEq

/-- `CancellationTokenFuture::new` (future.rs, lines 57-67): allocate a fresh
empty waiter cell, register it with the state, and build the future. -/
def CancellationTokenFuture.new (rt : ReadOnlyCancellationToken) (w : World) :
    CancellationTokenFuture × World :=
  let cid := w.cells.length
  let w1 : World := { w with cells := w.cells ++ [FutureWaiter.new_empty] }
  let w2 : World :=
    { w1 with states := w1.states.set rt.token ((w1.getState rt.token).add_waiter cid) }
  ({ token := rt, has_been_triggered := false, has_finished := false, waiter := cid }, w2)

/-- `CancellationToken::cancellation_future` (token.rs, lines 137-139). -/
def CancellationToken.cancellation_future (t : CancellationToken) (w : World) :
    CancellationTokenFuture × World :=
  CancellationTokenFuture.new t.read_only_token w

/-- `ReadOnlyCancellationToken::cancellation_future` (token.rs, lines 174-176). -/
def ReadOnlyCancellationToken.cancellation_future
    (rt : ReadOnlyCancellationToken) (w : World) :
    CancellationTokenFuture × World :=
  CancellationTokenFuture.new rt.clone w

/-- `Future::poll` for `CancellationTokenFuture` (future.rs, lines 81-95):
always re-store the waker, then check/record cancellation, then report. -/
def CancellationTokenFuture.poll (fut : CancellationTokenFuture) (w : World)
    (wk : Waker) : CancellationTokenFuture × World × Poll :=
  let cell := w.cells.getD fut.waiter FutureWaiter.new_empty
  let w1 : World := { w with cells := w.cells.set fut.waiter (cell.set_waker wk) }
  let fut1 :=
    if fut.has_been_triggered then fut
    else { fut with has_been_triggered := fut.token.is_cancelled w1 }
  if fut1.has_been_triggered then
    ({ fut1 with has_finished := true }, w1, Poll.ready)
  else
    (fut1, w1, Poll.pending)

/-- `Drop::drop` for `CancellationTokenFuture` (future.rs, lines 70-76):
deregister the cell, ignoring the `Result`. -/
def CancellationTokenFuture.drop (fut : CancellationTokenFuture) (w : World) :
    World :=
  let result := (w.getState fut.token.token).try_remove_waiter fut.waiter
  { w with states := w.states.set fut.token.token result.2 }

/-- `FusedFuture::is_terminated` (future.rs, lines 98-102). -/
def CancellationTokenFuture.is_terminated (fut : CancellationTokenFuture) : Bool :=
  fut.has_finished

/-- Events of the drain, for reasoning about the extent of the registry lock. -/
inductive DrainEvent
  | lockAcquire
  | wakeInvoked (wk : Waker)
  | lockRelease
deriving DecidableEq

/-- One iteration of the drain loop, recording an event per waker invocation. -/
def wakeOneEvents (acc : List FutureWaiter × List DrainEvent) (cid : CellId) :
    List FutureWaiter × List DrainEvent :=
  let cell := acc.1.getD cid FutureWaiter.new_empty
  let taken := cell.take_waker
  match taken.1 with
  | some waker => (acc.1.set cid taken.2, acc.2 ++ [DrainEvent.wakeInvoked waker])
  | none => (acc.1.set cid taken.2, acc.2)

/-- Event trace of `wake_all_async_waiters` (token.rs, lines 49-65), mirroring
the scope of the mutex guard in the source: `self.async_waiters.lock()` at
function entry, one `wakeInvoked` per `waker.wake()` inside the `drain(..)`
loop, and the guard dropped at function exit. -/
def CancellationState.wake_all_trace (s : CancellationState)
    (cells : List FutureWaiter) : List DrainEvent :=
  [DrainEvent.lockAcquire]
    ++ (s.async_waiters.foldl wakeOneEvents (cells, [])).2
    ++ [DrainEvent.lockRelease]

/-- Whether a drain trace invokes wakers only after the lock release, i.e. no
`wakeInvoked` event occurs before the first `lockRelease`. -/
def wakesOnlyAfterRelease : List DrainEvent → Bool
  | [] => true
  | DrainEvent.lockRelease :: _ => true
  | DrainEvent.wakeInvoked _ :: _ => false
  | DrainEvent.lockAcquire :: rest => wakesOnlyAfterRelease rest

/-- Polling the same future repeatedly with the same waker. -/
def pollRepeat (fut : CancellationTokenFuture) (w : World) (wk : Waker) :
    Nat → CancellationTokenFuture × World
  | 0 => (fut, w)
  | Nat.succ n =>
      let r := fut.poll w wk
      pollRepeat r.1 r.2.1 wk n

/-- Calling `cancel` on the same token repeatedly. -/
def cancelRepeat (t : CancellationToken) (w : World) : Nat → World
  | 0 => w
  | Nat.succ n => cancelRepeat t (t.cancel w) n

/-- The operations the library exposes on a world, for the monotonicity claim. -/
inductive Op
  | opCancel (t : CancellationToken)
  | opNewToken
  | opNewFuture (rt : ReadOnlyCancellationToken)
  | opPoll (fut : CancellationTokenFuture) (wk : Waker)
  | opDrop (fut : CancellationTokenFuture)

/-- Effect of one operation on the world. -/
def stepOp (w : World) : Op → World
  | Op.opCancel t => t.cancel w
  | Op.opNewToken => (CancellationToken.new w).2
  | Op.opNewFuture rt => (CancellationTokenFuture.new rt w).2
  | Op.opPoll fut wk => (fut.poll w wk).2.1
  | Op.opDrop fut => fut.drop w

/-- Effect of a sequence of operations on the world. -/
def runOps (w : World) (ops : List Op) : World :=
  ops.foldl stepOp w

/-! ### List helper lemmas -/

theorem getD_set_self {α : Type} : ∀ (l : List α) (i : Nat) (a d : α),
    i < l.length → (l.set i a).getD i d = a
  | _ :: _, 0, _, _, _ => rfl
  | _ :: xs, i + 1, a, d, h =>
      getD_set_self xs i a d (Nat.lt_of_succ_lt_succ h)

theorem getD_set_ne {α : Type} : ∀ (l : List α) (i j : Nat) (a d : α),
    i ≠ j → (l.set i a).getD j d = l.getD j d
  | [], _, _, _, _, _ => rfl
  | _ :: _, 0, 0, _, _, h => absurd rfl h
  | _ :: _, 0, _ + 1, _, _, _ => rfl
  | _ :: _, _ + 1, 0, _, _, _ => rfl
  | _ :: xs, i + 1, j + 1, a, d, h =>
      getD_set_ne xs i j a d (fun hij => h (congrArg Nat.succ hij))

theorem set_getD_self {α : Type} : ∀ (l : List α) (i : Nat) (d : α),
    l.set i (l.getD i d) = l
  | [], _, _ => rfl
  | _ :: _, 0, _ => rfl
  | x :: xs, i + 1, d => congrArg (x :: ·) (set_getD_self xs i d)

theorem set_oob {α : Type} : ∀ (l : List α) (i : Nat) (a : α),
    l.length ≤ i → l.set i a = l
  | [], _, _, _ => rfl
  | _ :: _, 0, _, h => absurd h (Nat.not_succ_le_zero _)
  | x :: xs, i + 1, a, h =>
      congrArg (x :: ·) (set_oob xs i a (Nat.le_of_succ_le_succ h))

theorem getD_append_left {α : Type} : ∀ (l m : List α) (i : Nat) (d : α),
    i < l.length → (l ++ m).getD i d = l.getD i d
  | _ :: _, _, 0, _, _ => rfl
  | _ :: xs, m, i + 1, d, h =>
      getD_append_left xs m i d (Nat.lt_of_succ_lt_succ h)
  | [], _, _, _, h => absurd h (Nat.not_lt_zero _)

theorem getD_append_len {α : Type} : ∀ (l : List α) (x d : α),
    (l ++ [x]).getD l.length d = x
  | [], _, _ => rfl
  | _ :: xs, x, d => getD_append_len xs x d

theorem getD_oob {α : Type} : ∀ (l : List α) (i : Nat) (d : α),
    l.length ≤ i → l.getD i d = d
  | [], _, _, _ => rfl
  | _ :: _, 0, _, h => absurd h (Nat.not_succ_le_zero _)
  | _ :: xs, i + 1, d, h => getD_oob xs i d (Nat.le_of_succ_le_succ h)

theorem getD_dropLast {α : Type} : ∀ (l : List α) (j : Nat) (d : α),
    j < l.length - 1 → l.dropLast.getD j d = l.getD j d := by
  intro l
  induction l with
  | nil => intro j d h; simp at h
  | cons x xs ih =>
      intro j d h
      cases xs with
      | nil => simp at h
      | cons y ys =>
          cases j with
          | zero => simp [List.dropLast]
          | succ j =>
              have hj : j < (y :: ys).length - 1 := by
                simp at h ⊢; omega
              simpa [List.dropLast] using ih j d hj

theorem lastElemD_eq_getD : ∀ (xs : List CellId) (x d : CellId),
    lastElemD xs x = (x :: xs).getD xs.length d
  | [], _, _ => rfl
  | y :: ys, _, d => lastElemD_eq_getD ys y d

theorem getD_mem {α : Type} : ∀ (l : List α) (i : Nat) (d : α),
    i < l.length → l.getD i d ∈ l
  | x :: _, 0, _, _ => List.mem_cons_self x _
  | _ :: xs, i + 1, d, h =>
      List.mem_cons_of_mem _ (getD_mem xs i d (Nat.lt_of_succ_lt_succ h))

theorem mem_iff_getD : ∀ (l : List Nat) (a : Nat),
    a ∈ l ↔ ∃ j, j < l.length ∧ l.getD j 0 = a := by
  intro l
  induction l with
  | nil => intro a; simp
  | cons x xs ih =>
      intro a
      constructor
      · intro h
        rcases List.mem_cons.mp h with h | h
        · exact ⟨0, by simp, h.symm⟩
        · rcases (ih a).mp h with ⟨j, hj, hg⟩
          exact ⟨j + 1, by simpa using Nat.succ_lt_succ hj, hg⟩
      · rintro ⟨j, hj, hg⟩
        cases j with
        | zero => exact hg ▸ List.mem_cons_self x xs
        | succ j =>
            exact List.mem_cons_of_mem _
              ((ih a).mpr ⟨j, Nat.lt_of_succ_lt_succ (by simpa using hj), hg⟩)

theorem nodup_getD_inj : ∀ (l : List Nat) (i j : Nat),
    l.Nodup → i < l.length → j < l.length → l.getD i 0 = l.getD j 0 → i = j := by
  intro l
  induction l with
  | nil => intro i j _ hi; simp at hi
  | cons x xs ih =>
      intro i j hnd hi hj hg
      rcases List.nodup_cons.mp hnd with ⟨hx, hxs⟩
      cases i with
      | zero =>
          cases j with
          | zero => rfl
          | succ j =>
              exfalso
              have : x ∈ xs := by
                have hjlen : j < xs.length := Nat.lt_of_succ_lt_succ (by simpa using hj)
                have : xs.getD j 0 = x := by simpa using hg.symm
                exact this ▸ getD_mem xs j 0 hjlen
              exact hx this
      | succ i =>
          cases j with
          | zero =>
              exfalso
              have hilen : i < xs.length := Nat.lt_of_succ_lt_succ (by simpa using hi)
              have : xs.getD i 0 = x := by simpa using hg
              exact hx (this ▸ getD_mem xs i 0 hilen)
          | succ j =>
              have hilen : i < xs.length := Nat.lt_of_succ_lt_succ (by simpa using hi)
              have hjlen : j < xs.length := Nat.lt_of_succ_lt_succ (by simpa using hj)
              exact congrArg Nat.succ (ih i j hxs hilen hjlen (by simpa using hg))

/-! ### Lemmas about `findPosition` and `swapRemove` -/

theorem findPosition_none : ∀ (l : List Nat) (cid : Nat),
    findPosition (fun c => c == cid) l = none → cid ∉ l := by
  intro l cid
  induction l with
  | nil => intro _ h; simp at h
  | cons x xs ih =>
      intro h
      simp only [findPosition] at h
      by_cases hx : (x == cid) = true
      · rw [if_pos hx] at h
        exact absurd h (by simp)
      · rw [if_neg hx] at h
        have hxs : findPosition (fun c => c == cid) xs = none := by
          simpa using h
        intro hmem
        rcases List.mem_cons.mp hmem with hh | hh
        · exact hx (by simp [hh])
        · exact ih hxs hh

theorem findPosition_eq_none_of_not_mem : ∀ (l : List Nat) (cid : Nat),
    cid ∉ l → findPosition (fun c => c == cid) l = none := by
  intro l cid
  induction l with
  | nil => intro _; rfl
  | cons x xs ih =>
      intro h
      have hx : (x == cid) = false := by
        simp only [beq_eq_false_iff_ne]
        intro hq
        exact h (hq ▸ List.mem_cons_self x xs)
      have hxs : cid ∉ xs := fun hm => h (List.mem_cons_of_mem x hm)
      simp [findPosition, hx, ih hxs]

theorem findPosition_some : ∀ (l : List Nat) (cid i : Nat),
    findPosition (fun c => c == cid) l = some i →
    i < l.length ∧ l.getD i 0 = cid := by
  intro l
  induction l with
  | nil => intro cid i h; simp [findPosition] at h
  | cons x xs ih =>
      intro cid i h
      simp only [findPosition] at h
      by_cases hx : (x == cid) = true
      · rw [if_pos hx] at h
        cases h
        exact ⟨Nat.succ_pos _, by simpa using hx⟩
      · rw [if_neg hx] at h
        rcases Option.map_eq_some'.mp h with ⟨j, hj, hji⟩
        rcases ih cid j hj with ⟨hlen, hget⟩
        subst hji
        exact ⟨by simpa using Nat.succ_lt_succ hlen, by simpa using hget⟩

theorem swapRemove_not_mem (l : List Nat) (i cid : Nat)
    (hnd : l.Nodup) (hi : i < l.length) (hg : l.getD i 0 = cid) :
    cid ∉ swapRemove l i := by
  cases l with
  | nil => simp at hi
  | cons x xs =>
      intro hmem
      simp only [swapRemove] at hmem
      rcases (mem_iff_getD _ cid).mp hmem with ⟨j, hjlen, hjget⟩
      have hlenset : (((x :: xs).set i (lastElemD xs x))).length = (x :: xs).length :=
        List.length_set _ _ _
      have hjlt : j < (x :: xs).length - 1 := by
        rw [List.length_dropLast, hlenset] at hjlen
        exact hjlen
      have hjlt2 : j < ((x :: xs).set i (lastElemD xs x)).length - 1 := by
        rw [hlenset]; exact hjlt
      have hdl : (((x :: xs).set i (lastElemD xs x)).dropLast).getD j 0
          = ((x :: xs).set i (lastElemD xs x)).getD j 0 :=
        getD_dropLast _ j 0 hjlt2
      rw [hdl] at hjget
      have hlast : lastElemD xs x = (x :: xs).getD ((x :: xs).length - 1) 0 := by
        have := lastElemD_eq_getD xs x 0
        simpa using this
      by_cases hij : i = j
      · subst hij
        rw [getD_set_self _ _ _ _ hi] at hjget
        rw [hlast] at hjget
        have hlm1 : (x :: xs).length - 1 < (x :: xs).length := by
          simp
        have := nodup_getD_inj (x :: xs) ((x :: xs).length - 1) i hnd hlm1 hi
          (by rw [hjget, hg])
        omega
      · rw [getD_set_ne _ _ _ _ _ hij] at hjget
        have hjlt3 : j < (x :: xs).length := Nat.lt_of_lt_of_le hjlt (Nat.sub_le _ _)
        have := nodup_getD_inj (x :: xs) j i hnd hjlt3 hi (by rw [hjget, hg])
        exact hij this.symm

/-- `try_remove_waiter` removes the cell: under the registry invariant
(a cell appears at most once), the cell is absent afterwards. -/
theorem try_remove_waiter_not_mem (s : CancellationState) (cid : CellId)
    (hnd : s.async_waiters.Nodup) :
    cid ∉ (s.try_remove_waiter cid).2.async_waiters := by
  unfold CancellationState.try_remove_waiter
  cases hf : findPosition (fun c => c == cid) s.async_waiters with
  | none => exact findPosition_none _ _ hf
  | some i =>
      rcases findPosition_some _ _ _ hf with ⟨hlen, hget⟩
      exact swapRemove_not_mem _ _ _ hnd hlen hget

/-- When the cell is not registered, `try_remove_waiter` reports `not_found`
and leaves the state untouched. -/
theorem try_remove_waiter_not_found (s : CancellationState) (cid : CellId)
    (h : cid ∉ s.async_waiters) :
    s.try_remove_waiter cid = (RemoveResult.not_found, s) := by
  unfold CancellationState.try_remove_waiter
  rw [findPosition_eq_none_of_not_mem _ _ h]

/-- `try_remove_waiter` never touches the cancellation flag. -/
theorem try_remove_waiter_flag (s : CancellationState) (cid : CellId) :
    (s.try_remove_waiter cid).2.cancellation_flag = s.cancellation_flag := by
  unfold CancellationState.try_remove_waiter
  cases findPosition (fun c => c == cid) s.async_waiters <;> rfl

/-! ### Lemmas about the drain fold -/

theorem filterMap_waker_set_ne :
    ∀ (t : List CellId) (cells : List FutureWaiter) (c : CellId) (v : FutureWaiter),
    c ∉ t →
    t.filterMap (fun cid => ((cells.set c v).getD cid FutureWaiter.new_empty).waker)
      = t.filterMap (fun cid => (cells.getD cid FutureWaiter.new_empty).waker) := by
  intro t
  induction t with
  | nil => intro _ _ _ _; rfl
  | cons y ys ih =>
      intro cells c v hc
      have hcy : c ≠ y := fun h => hc (h ▸ List.mem_cons_self y ys)
      have hcys : c ∉ ys := fun h => hc (List.mem_cons_of_mem y h)
      simp only [List.filterMap_cons]
      rw [getD_set_ne _ _ _ _ _ hcy, ih cells c v hcys]

/-- The drain appends, to the wake log, exactly one invocation per registered
cell whose waker is present, in registration order. -/
theorem foldl_wakeOne_log :
    ∀ (l : List CellId) (cells : List FutureWaiter) (log : List Waker),
    l.Nodup →
    (l.foldl wakeOne (cells, log)).2 =
      log ++ l.filterMap (fun cid => (cells.getD cid FutureWaiter.new_empty).waker) := by
  intro l
  induction l with
  | nil => intro cells log _; simp
  | cons c t ih =>
      intro cells log hnd
      rcases List.nodup_cons.mp hnd with ⟨hc, ht⟩
      simp only [List.foldl_cons]
      cases hcell : (cells.getD c FutureWaiter.new_empty).waker with
      | some wk =>
          have hstep : wakeOne (cells, log) c
              = (cells.set c { waker := none }, log ++ [wk]) := by
            simp only [wakeOne, FutureWaiter.take_waker, hcell]
          rw [hstep, ih _ _ ht, filterMap_waker_set_ne t cells c _ hc]
          rw [List.filterMap_cons, hcell]
          simp
      | none =>
          have hstep : wakeOne (cells, log) c
              = (cells.set c { waker := none }, log) := by
            simp only [wakeOne, FutureWaiter.take_waker, hcell]
          rw [hstep, ih _ _ ht, filterMap_waker_set_ne t cells c _ hc]
          rw [List.filterMap_cons, hcell]

/-- The event-trace fold runs in lock-step with the drain fold: same final
cells, and its events are the drain's wake log mapped into events. -/
theorem foldl_wakeOneEvents_map :
    ∀ (l : List CellId) (cells : List FutureWaiter) (ws : List Waker),
    l.foldl wakeOneEvents (cells, ws.map DrainEvent.wakeInvoked)
      = ((l.foldl wakeOne (cells, ws)).1,
         (l.foldl wakeOne (cells, ws)).2.map DrainEvent.wakeInvoked) := by
  intro l
  induction l with
  | nil => intro cells ws; rfl
  | cons c t ih =>
      intro cells ws
      simp only [List.foldl_cons]
      cases hcell : (cells.getD c FutureWaiter.new_empty).waker with
      | some wk =>
          have hstep1 : wakeOneEvents (cells, ws.map DrainEvent.wakeInvoked) c
              = (cells.set c { waker := none },
                 (ws ++ [wk]).map DrainEvent.wakeInvoked) := by
            simp only [wakeOneEvents, FutureWaiter.take_waker, hcell, List.map_append,
              List.map_cons, List.map_nil]
          have hstep2 : wakeOne (cells, ws) c
              = (cells.set c { waker := none }, ws ++ [wk]) := by
            simp only [wakeOne, FutureWaiter.take_waker, hcell]
          rw [hstep1, hstep2, ih]
      | none =>
          have hstep1 : wakeOneEvents (cells, ws.map DrainEvent.wakeInvoked) c
              = (cells.set c { waker := none }, ws.map DrainEvent.wakeInvoked) := by
            simp only [wakeOneEvents, FutureWaiter.take_waker, hcell]
          have hstep2 : wakeOne (cells, ws) c
              = (cells.set c { waker := none }, ws) := by
            simp only [wakeOne, FutureWaiter.take_waker, hcell]
          rw [hstep1, hstep2, ih]

/-! ### Lemmas about `poll` -/

/-- A single poll leaves the state heap and the wake log untouched, keeps the
future bound to the same token and cell, only rewrites the bound cell in the
cell heap, and afterwards the bound cell holds the supplied waker. -/
theorem poll_world (fut : CancellationTokenFuture) (w : World) (wk : Waker) :
    (fut.poll w wk).2.1.states = w.states ∧
    (fut.poll w wk).2.1.wakeLog = w.wakeLog ∧
    (fut.poll w wk).2.1.cells = w.cells.set fut.waiter { waker := some wk } ∧
    (fut.poll w wk).1.token = fut.token ∧
    (fut.poll w wk).1.waiter = fut.waiter := by
  unfold CancellationTokenFuture.poll
  cases hb : fut.has_been_triggered
  · simp only [FutureWaiter.set_waker, hb, Bool.false_eq_true, if_false]
    split <;> simp
  · simp [FutureWaiter.set_waker, hb]

/-- If the shared flag is set, any poll reports `ready`. -/
theorem poll_ready_of_flag (fut : CancellationTokenFuture) (w : World)
    (wk : Waker) (h : (w.getState fut.token.token).cancellation_flag = true) :
    (fut.poll w wk).2.2 = Poll.ready := by
  unfold CancellationTokenFuture.poll
  cases hb : fut.has_been_triggered
  · simp only [World.getState, List.getD_eq_getElem?_getD] at h
    simp [FutureWaiter.set_waker, hb, ReadOnlyCancellationToken.is_cancelled,
      CancellationState.is_cancelled, World.getState, h]
  · simp [FutureWaiter.set_waker, hb]

/-- Repeated polling never touches the state heap or the wake log, never
rebinds the future, and preserves the cell-heap length. -/
theorem pollRepeat_world : ∀ (n : Nat) (fut : CancellationTokenFuture)
    (w : World) (wk : Waker),
    (pollRepeat fut w wk n).2.states = w.states ∧
    (pollRepeat fut w wk n).2.wakeLog = w.wakeLog ∧
    (pollRepeat fut w wk n).1.token = fut.token ∧
    (pollRepeat fut w wk n).1.waiter = fut.waiter ∧
    (pollRepeat fut w wk n).2.cells.length = w.cells.length := by
  intro n
  induction n with
  | zero => intro fut w wk; exact ⟨rfl, rfl, rfl, rfl, rfl⟩
  | succ n ih =>
      intro fut w wk
      rcases poll_world fut w wk with ⟨hs, hl, hc, ht, hw⟩
      rcases ih (fut.poll w wk).1 (fut.poll w wk).2.1 wk with ⟨is2, il2, it2, iw2, ic2⟩
      simp only [pollRepeat]
      refine ⟨?_, ?_, ?_, ?_, ?_⟩
      · rw [is2, hs]
      · rw [il2, hl]
      · rw [it2, ht]
      · rw [iw2, hw]
      · rw [ic2, hc, List.length_set]

/-- Once the bound cell holds the supplied waker, repeated polling keeps it. -/
theorem pollRepeat_cell : ∀ (n : Nat) (fut : CancellationTokenFuture)
    (w : World) (wk : Waker),
    fut.waiter < w.cells.length →
    w.cells.getD fut.waiter FutureWaiter.new_empty = { waker := some wk } →
    (pollRepeat fut w wk n).2.cells.getD fut.waiter FutureWaiter.new_empty
      = { waker := some wk } := by
  intro n
  induction n with
  | zero => intro fut w wk _ hc; exact hc
  | succ n ih =>
      intro fut w wk hlt hc
      rcases poll_world fut w wk with ⟨_, _, hcells, _, hwt⟩
      simp only [pollRepeat]
      have h2 : (fut.poll w wk).2.1.cells.getD fut.waiter FutureWaiter.new_empty
          = { waker := some wk } := by
        rw [hcells]; exact getD_set_self _ _ _ _ hlt
      have h3 : fut.waiter < (fut.poll w wk).2.1.cells.length := by
        rw [hcells, List.length_set]; exact hlt
      have ih2 := ih (fut.poll w wk).1 (fut.poll w wk).2.1 wk
      rw [hwt] at ih2
      exact ih2 h3 h2

/-! ### Lemmas about `cancel` at the world level -/

/-- After a `cancel`, the token's state is exactly: flag set, registry empty. -/
theorem cancel_getState (t : CancellationToken) (w : World)
    (ht : t.state < w.states.length) :
    (t.cancel w).getState t.state
      = { cancellation_flag := true, async_waiters := [] } := by
  unfold CancellationToken.cancel World.getState
  exact getD_set_self _ _ _ _ ht

/-- Unfolding of `CancellationToken.cancel` as a field-wise equation. -/
theorem cancel_eq (t : CancellationToken) (w : World) :
    t.cancel w =
      { states := w.states.set t.state
          ((w.getState t.state).cancel w.cells w.wakeLog).1,
        cells := ((w.getState t.state).cancel w.cells w.wakeLog).2.1,
        wakeLog := ((w.getState t.state).cancel w.cells w.wakeLog).2.2 } :=
  rfl

/-- `cancel` is idempotent as a world transformer. -/
theorem cancel_cancel (t : CancellationToken) (w : World)
    (ht : t.state < w.states.length) :
    t.cancel (t.cancel w) = t.cancel w := by
  have hget := cancel_getState t w ht
  rw [cancel_eq t (t.cancel w), hget]
  show ({ states := (t.cancel w).states.set t.state
            { cancellation_flag := true, async_waiters := [] },
          cells := (t.cancel w).cells,
          wakeLog := (t.cancel w).wakeLog } : World) = t.cancel w
  have hset : (t.cancel w).states.set t.state
      { cancellation_flag := true, async_waiters := [] } = (t.cancel w).states := by
    show (w.states.set t.state
        ((w.getState t.state).cancel w.cells w.wakeLog).1).set t.state
        { cancellation_flag := true, async_waiters := [] }
      = (t.cancel w).states
    rw [List.set_set]
    rfl
  rw [hset]

/-- After the first `cancel`, further `cancel` calls change nothing. -/
theorem cancelRepeat_after_one : ∀ (n : Nat) (t : CancellationToken) (w : World),
    t.state < w.states.length →
    cancelRepeat t (t.cancel w) n = t.cancel w := by
  intro n
  induction n with
  | zero => intro t w _; rfl
  | succ n ih =>
      intro t w ht
      simp only [cancelRepeat]
      rw [cancel_cancel t w ht]
      exact ih t w ht

/-- `is_cancelled` reads `true` after `cancel`. -/
theorem is_cancelled_after_cancel (t : CancellationToken) (w : World)
    (ht : t.state < w.states.length) :
    t.is_cancelled (t.cancel w) = true := by
  unfold CancellationToken.is_cancelled
  rw [cancel_getState t w ht]
  rfl

/-! ### Claim C2 -/

/-- C2: `cancel()` unconditionally sets the cancellation flag to true, then
removes every cell registered in the registry at call time (afterwards the
registry holds none of them — it is empty), and for each removed cell whose
waker is present invokes that waker exactly once, in registration order,
doing nothing for cells whose waker is absent. -/
theorem cancel_sets_flag_and_drains_registry (s : CancellationState)
    (cells : List FutureWaiter) (log : List Waker)
    (hnd : s.async_waiters.Nodup) :
    (s.cancel cells log).1.cancellation_flag = true ∧
    (s.cancel cells log).1.async_waiters = [] ∧
    (s.cancel cells log).2.2 =
      log ++ s.async_waiters.filterMap
        (fun cid => (cells.getD cid FutureWaiter.new_empty).waker) := by
  refine ⟨rfl, rfl, ?_⟩
  show (s.async_waiters.foldl wakeOne (cells, log)).2 = _
  exact foldl_wakeOne_log s.async_waiters cells log hnd

/-- C2 instantiated: three registered cells, wakers 3 and 9 present, the
middle cell empty; the flag is set, the registry is emptied, and exactly the
two present wakers are invoked, once each. -/
theorem cancel_sets_flag_and_drains_registry_witness :
    ([0, 1, 2] : List CellId).Nodup ∧
    ((CancellationState.cancel
        { cancellation_flag := false, async_waiters := [0, 1, 2] }
        [{ waker := some 3 }, { waker := none }, { waker := some 9 }]
        []).1.cancellation_flag = true ∧
     (CancellationState.cancel
        { cancellation_flag := false, async_waiters := [0, 1, 2] }
        [{ waker := some 3 }, { waker := none }, { waker := some 9 }]
        []).1.async_waiters = [] ∧
     (CancellationState.cancel
        { cancellation_flag := false, async_waiters := [0, 1, 2] }
        [{ waker := some 3 }, { waker := none }, { waker := some 9 }]
        []).2.2 = [3, 9]) := by
  have h := cancel_sets_flag_and_drains_registry
    { cancellation_flag := false, async_waiters := [0, 1, 2] }
    [{ waker := some 3 }, { waker := none }, { waker := some 9 }]
    [] (by decide)
  exact ⟨by decide, h.1, h.2.1, h.2.2.trans (by decide)⟩

/-! ### Claim C3 -/

/-- C3 as stated is refuted: with one registered cell holding waker 7, the
drain's event trace is acquire-wake-release, i.e. the waker is invoked before
the registry lock is released, not after. -/
theorem drain_wakes_before_release_counterexample :
    CancellationState.wake_all_trace
        { cancellation_flag := true, async_waiters := [0] }
        [{ waker := some 7 }]
      = [DrainEvent.lockAcquire, DrainEvent.wakeInvoked 7,
         DrainEvent.lockRelease] ∧
    wakesOnlyAfterRelease
      (CancellationState.wake_all_trace
        { cancellation_flag := true, async_waiters := [0] }
        [{ waker := some 7 }]) = false := by
  exact ⟨by decide, by decide⟩

/-- C3 amended: during `cancel()`'s drain, every resumption callback is
invoked while the registry lock is held — the trace is the lock acquisition,
then exactly the drain's waker invocations, then the lock release. -/
theorem drain_invokes_wakers_under_lock (s : CancellationState)
    (cells : List FutureWaiter) :
    s.wake_all_trace cells =
      DrainEvent.lockAcquire ::
        ((s.wake_all_async_waiters cells []).2.2.map DrainEvent.wakeInvoked
          ++ [DrainEvent.lockRelease]) := by
  unfold CancellationState.wake_all_trace
  have h := foldl_wakeOneEvents_map s.async_waiters cells []
  simp only [List.map_nil] at h
  rw [congrArg Prod.snd h]
  rfl

/-! ### Claim C4 -/

/-- C4 as stated is refuted: a future created after cancellation completes on
its first poll (reports `ready`, `has_finished = true`), yet its resumption
cell is still present in the registry afterwards. -/
theorem completed_future_cell_still_registered :
    (let p0 := CancellationToken.new World.empty
     let w1 := p0.1.cancel p0.2
     let p2 := p0.1.cancellation_future w1
     let p3 := p2.1.poll p2.2 7
     p3.2.2 = Poll.ready ∧ p3.1.has_finished = true ∧
       p2.1.waiter ∈ (p3.2.1.getState p0.1.state).async_waiters) := by
  decide

/-- C4 amended: a completed computation's cell is absent from the registry
when the cell was registered at the time `cancel()` ran (the drain removed
it); completion itself does not deregister, so a computation registered after
cancellation keeps its cell through completion and it becomes absent only
when the computation is dropped. -/
theorem completion_cell_absent_after_drain_or_drop :
    (let p0 := CancellationToken.new World.empty
     let p1 := p0.1.cancellation_future p0.2
     let p2 := p1.1.poll p1.2 5
     let w3 := p0.1.cancel p2.2.1
     let p4 := p2.1.poll w3 5
     p4.2.2 = Poll.ready ∧ p4.1.has_finished = true ∧
       p4.1.waiter ∉ (p4.2.1.getState p0.1.state).async_waiters) ∧
    (let q0 := CancellationToken.new World.empty
     let v1 := q0.1.cancel q0.2
     let q2 := q0.1.cancellation_future v1
     let q3 := q2.1.poll q2.2 7
     q3.2.2 = Poll.ready ∧ q3.1.has_finished = true ∧
       q3.1.waiter ∈ (q3.2.1.getState q0.1.state).async_waiters ∧
       q3.1.waiter ∉ ((q3.1.drop q3.2.1).getState q0.1.state).async_waiters) := by
  exact ⟨by decide, by decide⟩

/-! ### Claim C5 -/

/-- Reading the flag through a read-only token ignores the cell heap and log. -/
theorem is_cancelled_mk (rt : ReadOnlyCancellationToken)
    (st : List CancellationState) (c : List FutureWaiter) (lg : List Waker) :
    rt.is_cancelled { states := st, cells := c, wakeLog := lg }
      = (st.getD rt.token CancellationState.new).cancellation_flag :=
  rfl

/-- Case characterisation of a single poll: the reported readiness and the
updated local booleans, as functions of the prior local flag and the shared
flag. -/
theorem poll_cases (fut : CancellationTokenFuture) (w : World) (wk : Waker) :
    (fut.poll w wk).2.2
        = (if (fut.has_been_triggered
               || (w.getState fut.token.token).cancellation_flag) = true
           then Poll.ready else Poll.pending) ∧
    (fut.poll w wk).1.has_been_triggered
        = (fut.has_been_triggered
           || (w.getState fut.token.token).cancellation_flag) ∧
    (fut.poll w wk).1.has_finished
        = (fut.has_finished
           || (fut.has_been_triggered
               || (w.getState fut.token.token).cancellation_flag)) := by
  unfold CancellationTokenFuture.poll
  cases hb : fut.has_been_triggered
  · cases hcan : (w.getState fut.token.token).cancellation_flag
    · simp only [World.getState, List.getD_eq_getElem?_getD] at hcan
      simp [hb, is_cancelled_mk, World.getState, hcan]
    · simp only [World.getState, List.getD_eq_getElem?_getD] at hcan
      simp [hb, is_cancelled_mk, World.getState, hcan]
  · simp [hb]

/-- C5: every poll first re-stores the supplied resumption callback into the
bound cell (also on repeat polls and after completion); if cancellation was
already locally recorded or the shared flag reads true it records that, marks
itself finished and reports `ready`, otherwise it reports `pending`; apart
from refreshing the stored callback the poll has no other world effect. -/
theorem poll_stores_waker_and_reports (fut : CancellationTokenFuture)
    (w : World) (wk : Waker) (hw : fut.waiter < w.cells.length) :
    (fut.poll w wk).2.1.cells.getD fut.waiter FutureWaiter.new_empty
        = { waker := some wk } ∧
    (fut.poll w wk).2.1.cells = w.cells.set fut.waiter { waker := some wk } ∧
    (fut.poll w wk).2.1.states = w.states ∧
    (fut.poll w wk).2.1.wakeLog = w.wakeLog ∧
    ((fut.poll w wk).2.2 = Poll.ready
      ↔ (fut.has_been_triggered || fut.token.is_cancelled w) = true) ∧
    (fut.poll w wk).1.has_been_triggered
        = (fut.has_been_triggered || fut.token.is_cancelled w) ∧
    (fut.poll w wk).1.has_finished
        = (fut.has_finished
           || (fut.has_been_triggered || fut.token.is_cancelled w)) := by
  rcases poll_world fut w wk with ⟨hs, hl, hc, _, _⟩
  rcases poll_cases fut w wk with ⟨hp, hbt, hbf⟩
  have hic : fut.token.is_cancelled w
      = (w.getState fut.token.token).cancellation_flag := rfl
  refine ⟨?_, hc, hs, hl, ?_, ?_, ?_⟩
  · rw [hc]; exact getD_set_self _ _ _ _ hw
  · rw [hp, hic]
    cases fut.has_been_triggered
      || (w.getState fut.token.token).cancellation_flag <;> simp
  · rw [hbt, hic]
  · rw [hbf, hic]

/-- C5 instantiated: an already-finished future, polled again with waker 8 in
a world whose flag is set; the cell is refreshed, the state heap and log are
untouched, and the poll re-reports `ready`. -/
theorem poll_stores_waker_and_reports_witness :
    (0 : Nat) < ([{ waker := some 2 }] : List FutureWaiter).length ∧
    ((CancellationTokenFuture.poll ⟨⟨0⟩, true, true, 0⟩
        ⟨[⟨true, []⟩], [{ waker := some 2 }], [2]⟩ 8).2.1.cells.getD 0
        FutureWaiter.new_empty = { waker := some 8 } ∧
     (CancellationTokenFuture.poll ⟨⟨0⟩, true, true, 0⟩
        ⟨[⟨true, []⟩], [{ waker := some 2 }], [2]⟩ 8).2.1.cells
        = [{ waker := some 2 }].set 0 { waker := some 8 } ∧
     (CancellationTokenFuture.poll ⟨⟨0⟩, true, true, 0⟩
        ⟨[⟨true, []⟩], [{ waker := some 2 }], [2]⟩ 8).2.1.states
        = [⟨true, []⟩] ∧
     (CancellationTokenFuture.poll ⟨⟨0⟩, true, true, 0⟩
        ⟨[⟨true, []⟩], [{ waker := some 2 }], [2]⟩ 8).2.1.wakeLog = [2] ∧
     ((CancellationTokenFuture.poll ⟨⟨0⟩, true, true, 0⟩
        ⟨[⟨true, []⟩], [{ waker := some 2 }], [2]⟩ 8).2.2 = Poll.ready
       ↔ (true || ReadOnlyCancellationToken.is_cancelled ⟨0⟩
            ⟨[⟨true, []⟩], [{ waker := some 2 }], [2]⟩) = true) ∧
     (CancellationTokenFuture.poll ⟨⟨0⟩, true, true, 0⟩
        ⟨[⟨true, []⟩], [{ waker := some 2 }], [2]⟩ 8).1.has_been_triggered
        = (true || ReadOnlyCancellationToken.is_cancelled ⟨0⟩
            ⟨[⟨true, []⟩], [{ waker := some 2 }], [2]⟩) ∧
     (CancellationTokenFuture.poll ⟨⟨0⟩, true, true, 0⟩
        ⟨[⟨true, []⟩], [{ waker := some 2 }], [2]⟩ 8).1.has_finished
        = (true || (true || ReadOnlyCancellationToken.is_cancelled ⟨0⟩
            ⟨[⟨true, []⟩], [{ waker := some 2 }], [2]⟩))) := by
  exact ⟨by decide,
    poll_stores_waker_and_reports ⟨⟨0⟩, true, true, 0⟩
      ⟨[⟨true, []⟩], [{ waker := some 2 }], [2]⟩ 8 (by decide)⟩

/-! ### Claim C6 -/

/-- C6: `cancel()` is idempotent — for every N ≥ 1, calling it N times yields
a world identical to calling it once, and leaves `is_cancelled()` true. -/
theorem cancel_idempotent (t : CancellationToken) (w : World) (n : Nat)
    (ht : t.state < w.states.length) (hn : 1 ≤ n) :
    cancelRepeat t w n = t.cancel w ∧
    t.is_cancelled (cancelRepeat t w n) = true := by
  obtain ⟨m, rfl⟩ : ∃ m, n = m + 1 := ⟨n - 1, by omega⟩
  have h1 : cancelRepeat t w (m + 1) = t.cancel w := by
    simp only [cancelRepeat]
    exact cancelRepeat_after_one m t w ht
  refine ⟨h1, ?_⟩
  rw [h1]
  exact is_cancelled_after_cancel t w ht

/-- C6 instantiated: three consecutive `cancel` calls on a fresh one-state
world equal a single call, with the flag reading true. -/
theorem cancel_idempotent_witness :
    ((0 : Nat) < ([CancellationState.new] : List CancellationState).length
      ∧ 1 ≤ 3) ∧
    (cancelRepeat ⟨0⟩ ⟨[CancellationState.new], [], []⟩ 3
        = CancellationToken.cancel ⟨0⟩ ⟨[CancellationState.new], [], []⟩ ∧
     CancellationToken.is_cancelled ⟨0⟩
        (cancelRepeat ⟨0⟩ ⟨[CancellationState.new], [], []⟩ 3) = true) := by
  exact ⟨⟨by decide, by decide⟩,
    cancel_idempotent ⟨0⟩ ⟨[CancellationState.new], [], []⟩ 3
      (by decide) (by decide)⟩

/-! ### Claim C7 -/

/-- No single library operation can lower a set cancellation flag. -/
theorem stepOp_flag (w : World) (op : Op) (sid : Nat)
    (h : (w.getState sid).is_cancelled = true) :
    ((stepOp w op).getState sid).is_cancelled = true := by
  unfold World.getState CancellationState.is_cancelled at h ⊢
  cases op with
  | opCancel t =>
      show (((w.states.set t.state
          ((w.getState t.state).cancel w.cells w.wakeLog).1).getD sid
          CancellationState.new)).cancellation_flag = true
      by_cases he : t.state = sid
      · subst he
        by_cases hlt : t.state < w.states.length
        · rw [getD_set_self _ _ _ _ hlt]
          rfl
        · rw [set_oob _ _ _ (Nat.le_of_not_lt hlt)]
          exact h
      · rw [getD_set_ne _ _ _ _ _ he]
        exact h
  | opNewToken =>
      show (((w.states ++ [CancellationState.new]).getD sid
          CancellationState.new)).cancellation_flag = true
      by_cases hlt : sid < w.states.length
      · rw [getD_append_left _ _ _ _ hlt]
        exact h
      · rw [getD_oob _ _ _ (Nat.le_of_not_lt hlt)] at h
        exact absurd h (by decide)
  | opNewFuture rt =>
      show (((w.states.set rt.token
          ((w.getState rt.token).add_waiter w.cells.length)).getD sid
          CancellationState.new)).cancellation_flag = true
      by_cases he : rt.token = sid
      · subst he
        by_cases hlt : rt.token < w.states.length
        · rw [getD_set_self _ _ _ _ hlt]
          exact h
        · rw [set_oob _ _ _ (Nat.le_of_not_lt hlt)]
          exact h
      · rw [getD_set_ne _ _ _ _ _ he]
        exact h
  | opPoll fut wk =>
      have hs := (poll_world fut w wk).1
      show (((fut.poll w wk).2.1.states.getD sid
          CancellationState.new)).cancellation_flag = true
      rw [hs]
      exact h
  | opDrop fut =>
      show (((w.states.set fut.token.token
          ((w.getState fut.token.token).try_remove_waiter fut.waiter).2).getD sid
          CancellationState.new)).cancellation_flag = true
      by_cases he : fut.token.token = sid
      · subst he
        by_cases hlt : fut.token.token < w.states.length
        · rw [getD_set_self _ _ _ _ hlt]
          rw [try_remove_waiter_flag]
          exact h
        · rw [set_oob _ _ _ (Nat.le_of_not_lt hlt)]
          exact h
      · rw [getD_set_ne _ _ _ _ _ he]
        exact h

/-- A set flag survives any sequence of operations. -/
theorem runOps_flag : ∀ (ops : List Op) (w : World) (sid : Nat),
    (w.getState sid).is_cancelled = true →
    ((runOps w ops).getState sid).is_cancelled = true := by
  intro ops
  induction ops with
  | nil => intro w sid h; exact h
  | cons op rest ih =>
      intro w sid h
      exact ih (stepOp w op) sid (stepOp_flag w op sid h)

/-- C7: the cancellation flag is monotonic — once `is_cancelled()` reads true
for a state, no subsequent sequence of library operations (cancel, token or
future creation, polls, drops — on that state or any aliasing handle) makes
it read false again. -/
theorem cancellation_flag_monotonic (w : World) (sid : Nat) (ops : List Op)
    (h : (w.getState sid).is_cancelled = true) :
    ((runOps w ops).getState sid).is_cancelled = true :=
  runOps_flag ops w sid h

/-- C7 instantiated: a cancelled state stays cancelled across a new token, a
foreign cancel, a registration, a poll and a drop. -/
theorem cancellation_flag_monotonic_witness :
    ((World.mk [⟨true, []⟩] [⟨none⟩] []).getState 0).is_cancelled = true ∧
    ((runOps (World.mk [⟨true, []⟩] [⟨none⟩] [])
        [Op.opNewToken, Op.opCancel ⟨1⟩, Op.opNewFuture ⟨0⟩,
         Op.opPoll ⟨⟨0⟩, false, false, 0⟩ 4,
         Op.opDrop ⟨⟨0⟩, false, false, 0⟩]).getState 0).is_cancelled
      = true := by
  exact ⟨by decide,
    cancellation_flag_monotonic (World.mk [⟨true, []⟩] [⟨none⟩] []) 0
      [Op.opNewToken, Op.opCancel ⟨1⟩, Op.opNewFuture ⟨0⟩,
       Op.opPoll ⟨⟨0⟩, false, false, 0⟩ 4,
       Op.opDrop ⟨⟨0⟩, false, false, 0⟩] (by decide)⟩

/-! ### Claim C8 -/

/-- Unfolding of `CancellationTokenFuture.drop` as a field-wise equation. -/
theorem drop_eq (fut : CancellationTokenFuture) (w : World) :
    fut.drop w =
      { w with states :=
                w.states.set fut.token.token
                  ((w.getState fut.token.token).try_remove_waiter fut.waiter).2 } :=
  rfl

/-- C8: destroying a future deregisters its cell via identity-based
`try_remove_waiter`, so (under the registry invariant that a cell appears at
most once) the cell is absent from the registry afterwards; when the cell was
already gone, the `not_found` outcome is a silent no-op — the world is
returned completely unchanged, never an error. -/
theorem drop_deregisters_waiter (fut : CancellationTokenFuture) (w : World)
    (hs : fut.token.token < w.states.length)
    (hnd : (w.getState fut.token.token).async_waiters.Nodup) :
    fut.waiter ∉ ((fut.drop w).getState fut.token.token).async_waiters ∧
    (fut.waiter ∉ (w.getState fut.token.token).async_waiters →
      fut.drop w = w) := by
  constructor
  · rw [drop_eq]
    show fut.waiter ∉ ((w.states.set fut.token.token
        ((w.getState fut.token.token).try_remove_waiter fut.waiter).2).getD
        fut.token.token CancellationState.new).async_waiters
    rw [getD_set_self _ _ _ _ hs]
    exact try_remove_waiter_not_mem _ _ hnd
  · intro habs
    rw [drop_eq, try_remove_waiter_not_found _ _ habs]
    show ({ w with states :=
              w.states.set fut.token.token (w.getState fut.token.token) } :
        World) = w
    unfold World.getState
    rw [set_getD_self]

/-- C8 instantiated: dropping a future whose cell 0 sits in registry `[0, 1]`
leaves the registry without cell 0; the no-op branch is vacuous here. -/
theorem drop_deregisters_waiter_witness :
    ((0 : Nat) < ([⟨true, [0, 1]⟩] : List CancellationState).length ∧
      ([0, 1] : List CellId).Nodup) ∧
    ((0 : CellId) ∉ ((CancellationTokenFuture.drop ⟨⟨0⟩, false, false, 0⟩
        ⟨[⟨true, [0, 1]⟩], [⟨none⟩, ⟨none⟩], []⟩).getState 0).async_waiters ∧
     ((0 : CellId) ∉ ((⟨[⟨true, [0, 1]⟩], [⟨none⟩, ⟨none⟩], []⟩ :
          World).getState 0).async_waiters →
       CancellationTokenFuture.drop ⟨⟨0⟩, false, false, 0⟩
          ⟨[⟨true, [0, 1]⟩], [⟨none⟩, ⟨none⟩], []⟩
         = ⟨[⟨true, [0, 1]⟩], [⟨none⟩, ⟨none⟩], []⟩)) := by
  exact ⟨⟨by decide, by decide⟩,
    drop_deregisters_waiter ⟨⟨0⟩, false, false, 0⟩
      ⟨[⟨true, [0, 1]⟩], [⟨none⟩, ⟨none⟩], []⟩ (by decide) (by decide)⟩

/-! ### Claim C9 -/

/-- C9: cancellation visibility coincides with the cancellation domain.
Starting from any world: handle A, its clone B, its read-only observer C, and
an independently created handle T2; after `A.cancel()`, A, B and C all read
cancelled while T2 does not. -/
theorem cancellation_visibility_matches_domain (w : World) :
    let pA := CancellationToken.new w
    let b := pA.1.clone
    let c := pA.1.read_only_token
    let pT2 := CancellationToken.new pA.2
    let w2 := pA.1.cancel pT2.2
    pA.1.is_cancelled w2 = true ∧ b.is_cancelled w2 = true ∧
    c.is_cancelled w2 = true ∧ pT2.1.is_cancelled w2 = false := by
  intro pA b c pT2 w2
  have hlen : pA.1.state < pT2.2.states.length := by
    show w.states.length
        < ((w.states ++ [CancellationState.new]) ++ [CancellationState.new]).length
    simp
  have hA : pA.1.is_cancelled (pA.1.cancel pT2.2) = true :=
    is_cancelled_after_cancel pA.1 pT2.2 hlen
  have hC : c.is_cancelled (pA.1.cancel pT2.2) = true := by
    show ((pA.1.cancel pT2.2).getState pA.1.state).is_cancelled = true
    rw [cancel_getState pA.1 pT2.2 hlen]
    rfl
  have hT2 : pT2.1.is_cancelled (pA.1.cancel pT2.2) = false := by
    show ((pT2.2.states.set pA.1.state
        ((pT2.2.getState pA.1.state).cancel pT2.2.cells pT2.2.wakeLog).1).getD
        pT2.1.state CancellationState.new).is_cancelled = false
    have hne : pA.1.state ≠ pT2.1.state := by
      show w.states.length ≠ (w.states ++ [CancellationState.new]).length
      simp
    rw [getD_set_ne _ _ _ _ _ hne]
    show (((w.states ++ [CancellationState.new]) ++ [CancellationState.new]).getD
        (w.states ++ [CancellationState.new]).length
        CancellationState.new).is_cancelled = false
    rw [getD_append_len]
    rfl
  exact ⟨hA, hA, hC, hT2⟩

/-! ### Claim C1 -/

/-- C1: a future polled once (pending) before cancellation has its resumption
callback invoked exactly once in total — the wake log grows from `[]` to
`[5]` synchronously during the `cancel()` call, with no further poll needed —
and no matter how many times the future is polled afterwards the log stays
`[5]` while every subsequent poll reports `ready`. -/
theorem polled_then_cancelled_wakes_exactly_once :
    (let p0 := CancellationToken.new World.empty
     let p1 := p0.1.cancellation_future p0.2
     let p2 := p1.1.poll p1.2 5
     let w3 := p0.1.cancel p2.2.1
     p2.2.2 = Poll.pending ∧
     p2.2.1.wakeLog = [] ∧
     w3.wakeLog = [5] ∧
     (∀ n : Nat,
       (pollRepeat p2.1 w3 5 n).2.wakeLog = [5] ∧
       ((pollRepeat p2.1 w3 5 n).1.poll (pollRepeat p2.1 w3 5 n).2 5).2.2
         = Poll.ready)) := by
  refine ⟨by decide, by decide, by decide, ?_⟩
  intro n
  have hw := pollRepeat_world n ⟨⟨0⟩, false, false, 0⟩
    ⟨[⟨true, []⟩], [⟨none⟩], [5]⟩ 5
  rcases hw with ⟨hs, hl, ht, _, _⟩
  constructor
  · show (pollRepeat ⟨⟨0⟩, false, false, 0⟩
        ⟨[⟨true, []⟩], [⟨none⟩], [5]⟩ 5 n).2.wakeLog = [5]
    rw [hl]
  · show ((pollRepeat ⟨⟨0⟩, false, false, 0⟩
          ⟨[⟨true, []⟩], [⟨none⟩], [5]⟩ 5 n).1.poll
        (pollRepeat ⟨⟨0⟩, false, false, 0⟩
          ⟨[⟨true, []⟩], [⟨none⟩], [5]⟩ 5 n).2 5).2.2 = Poll.ready
    apply poll_ready_of_flag
    rw [ht]
    show ((pollRepeat ⟨⟨0⟩, false, false, 0⟩
        ⟨[⟨true, []⟩], [⟨none⟩], [5]⟩ 5 n).2.states.getD 0
        CancellationState.new).cancellation_flag = true
    rw [hs]
    decide

/-! ### Claim C10 -/

/-- C10: completion never deregisters — a poll leaves the state heap (hence
every registry) untouched, for every future and world; and concretely, a
future created after cancellation is registered at construction, completes on
its first poll, keeps its registered cell (with the stored callback refreshed)
through arbitrarily many further polls, and the cell leaves the registry only
when the future is dropped. -/
theorem cell_leaves_registry_only_by_drain_or_drop :
    (∀ (fut : CancellationTokenFuture) (w : World) (wk : Waker),
       (fut.poll w wk).2.1.states = w.states) ∧
    (let q0 := CancellationToken.new World.empty
     let v1 := q0.1.cancel q0.2
     let q2 := q0.1.cancellation_future v1
     let q3 := q2.1.poll q2.2 9
     q2.1.waiter ∈ (q2.2.getState q0.1.state).async_waiters ∧
     q3.2.2 = Poll.ready ∧
     (∀ n : Nat,
        q2.1.waiter ∈
          ((pollRepeat q3.1 q3.2.1 9 n).2.getState q0.1.state).async_waiters ∧
        (pollRepeat q3.1 q3.2.1 9 n).2.cells.getD q2.1.waiter
            FutureWaiter.new_empty = { waker := some 9 } ∧
        q2.1.waiter ∉
          (((pollRepeat q3.1 q3.2.1 9 n).1.drop
              (pollRepeat q3.1 q3.2.1 9 n).2).getState
            q0.1.state).async_waiters)) := by
  refine ⟨fun fut w wk => (poll_world fut w wk).1, by decide, by decide, ?_⟩
  intro n
  have hw := pollRepeat_world n ⟨⟨0⟩, true, true, 0⟩
    ⟨[⟨true, [0]⟩], [⟨some 9⟩], []⟩ 9
  rcases hw with ⟨hs, _, ht, hwt, _⟩
  refine ⟨?_, ?_, ?_⟩
  · show (0 : CellId) ∈ ((pollRepeat ⟨⟨0⟩, true, true, 0⟩
        ⟨[⟨true, [0]⟩], [⟨some 9⟩], []⟩ 9 n).2.states.getD 0
        CancellationState.new).async_waiters
    rw [hs]
    decide
  · show (pollRepeat ⟨⟨0⟩, true, true, 0⟩
        ⟨[⟨true, [0]⟩], [⟨some 9⟩], []⟩ 9 n).2.cells.getD 0
        FutureWaiter.new_empty = { waker := some 9 }
    exact pollRepeat_cell n ⟨⟨0⟩, true, true, 0⟩
      ⟨[⟨true, [0]⟩], [⟨some 9⟩], []⟩ 9 (by decide) (by decide)
  · show (0 : CellId) ∉ (((pollRepeat ⟨⟨0⟩, true, true, 0⟩
          ⟨[⟨true, [0]⟩], [⟨some 9⟩], []⟩ 9 n).2.states.set
        ((pollRepeat ⟨⟨0⟩, true, true, 0⟩
          ⟨[⟨true, [0]⟩], [⟨some 9⟩], []⟩ 9 n).1.token.token)
        (((pollRepeat ⟨⟨0⟩, true, true, 0⟩
            ⟨[⟨true, [0]⟩], [⟨some 9⟩], []⟩ 9 n).2.getState
          ((pollRepeat ⟨⟨0⟩, true, true, 0⟩
            ⟨[⟨true, [0]⟩], [⟨some 9⟩], []⟩ 9 n).1.token.token)).try_remove_waiter
          ((pollRepeat ⟨⟨0⟩, true, true, 0⟩
            ⟨[⟨true, [0]⟩], [⟨some 9⟩], []⟩ 9 n).1.waiter)).2).getD 0
        CancellationState.new).async_waiters
    unfold World.getState
    rw [ht, hwt, hs]
    decide
